import Mathlib

set_option maxHeartbeats 1600000

/--
Verification development for the convertor-dicom2bmp repository (src/utils.py).

Modelling conventions:
* Machine floats are modelled as exact rationals plus an explicit NaN value
  (inductive FP).  IEEE operations that produce NaN (in this program, the
  division 0/0 performed by the presentation-normalization step on a flat
  array) map to FP.nan, and ordered comparisons against NaN are false, as in
  IEEE 754.  All rational values appearing in the concrete counterexamples are
  exactly representable as binary floats, so the rational computations agree
  with the float computations the program performs.
* numpy arrays are a shape (list of dimension sizes) plus row-major flat data.
* Python exceptions are modelled by the Res type (ok / error); functions of
  the program that can raise return Res.
* The external pydicom capabilities apply_modality_lut and apply_voi_lut are
  black boxes in the program; they are passed as explicit function parameters.
-/

abbrev FsPath := List String

inductive Res (α : Type) where
  | ok (a : α)
  | error (e : String)
  deriving DecidableEq, Repr

/-- A machine float value: an exact rational, or NaN. -/
inductive FP where
  | num (q : ℚ)
  | nan
  deriving DecidableEq, Repr

namespace FP

def add : FP → FP → FP
  | num a, num b => num (a + b)
  | _, _ => nan

def sub : FP → FP → FP
  | num a, num b => num (a - b)
  | _, _ => nan

def mul : FP → FP → FP
  | num a, num b => num (a * b)
  | _, _ => nan

/-- Division; in this program a zero divisor only ever occurs with a zero
dividend (0/0), which is NaN in IEEE 754. -/
def div : FP → FP → FP
  | num a, num b => if b = 0 then nan else num (a / b)
  | _, _ => nan

/-- IEEE-style x ≤ y: false when either operand is NaN. -/
def leb : FP → FP → Bool
  | num a, num b => decide (a ≤ b)
  | _, _ => false

/-- IEEE-style x < y: false when either operand is NaN. -/
def ltb : FP → FP → Bool
  | num a, num b => decide (a < b)
  | _, _ => false

/-- Pairwise minimum, NaN-propagating like numpy minimum. -/
def fmin : FP → FP → FP
  | num a, num b => num (min a b)
  | _, _ => nan

/-- Pairwise maximum, NaN-propagating like numpy maximum. -/
def fmax : FP → FP → FP
  | num a, num b => num (max a b)
  | _, _ => nan

def isNan : FP → Bool
  | nan => true
  | num _ => false

end FP

/-- A numpy ndarray: dimension sizes plus the row-major flat sample data. -/
structure NDArray where
  shape : List Nat
  data : List FP
  deriving DecidableEq, Repr

/-- An elementwise (broadcast) operation: acts on every sample, keeps shape. -/
def NDArray.map (f : FP → FP) (a : NDArray) : NDArray :=
  { shape := a.shape, data := a.data.map f }

/-- ndarray.min(): NaN-propagating fold; empty arrays do not occur in the
program (numpy would raise), modelled as NaN. -/
def arrMin (a : NDArray) : FP :=
  match a.data with
  | [] => FP.nan
  | x :: xs => xs.foldl FP.fmin x

/-- ndarray.max(), see arrMin. -/
def arrMax (a : NDArray) : FP :=
  match a.data with
  | [] => FP.nan
  | x :: xs => xs.foldl FP.fmax x

/-- A DICOM tag value that is either a scalar or a pydicom MultiValue
(ordered sequence; nonempty, since the program indexes element 0). -/
inductive TagValue where
  | scalar (q : ℚ)
  | multi (q0 : ℚ) (rest : List ℚ)
  deriving DecidableEq, Repr

/-- float(value[0]) for a MultiValue, float(value) for a scalar
(utils.py lines 55-62). -/
def TagValue.resolve : TagValue → ℚ
  | .scalar q => q
  | .multi q0 _ => q0

/-- The decoded dataset fields read by the program.  Optional fields model
presence of the tag; pixelData models the (fallible) ds.pixel_array access.
SeriesNumber/InstanceNumber are the rendered (string) tag values. -/
structure Dataset where
  SOPClassUID : String
  RescaleSlope : Option ℚ
  RescaleIntercept : Option ℚ
  VOILUTFunction : Option String
  WindowCenter : Option TagValue
  WindowWidth : Option TagValue
  PhotometricInterpretation : Option String
  SeriesNumber : Option String
  InstanceNumber : Option String
  pixelData : Res NDArray
  deriving DecidableEq, Repr

/-- utils.py _is_unsupported (lines 10-24). -/
def is_unsupported (ds : Dataset) : Option String :=
  if ds.SOPClassUID = "1.2.840.10008.5.1.4.1.1.104.1" then
    some "Encapsulated PDF Storage"
  else if ds.SOPClassUID = "1.2.840.10008.5.1.4.1.1.88.59" then
    some "Key Object Selection Document"
  else none

/-- utils.py _get_LUT_value_LINEAR_EXACT (lines 107-120).  The source builds
the output with np.piecewise(data, [c1, c2], [data_min, data_max, mid]) where
c1 is data <= level - window/2 and c2 is data > level + window/2; numpy
assigns the pieces in order (y[c1] = data_min, then y[c2] = data_max, then the
default mid where neither holds), so where both masks hold - possible only
for window < 0 - the c2 assignment overwrites the c1 one.  Per element that
is: if c2 then data_max else if c1 then data_min else mid.  The mid lambda is
evaluated only on the elements selected by the default mask. -/
def get_LUT_value_LINEAR_EXACT (a : NDArray) (window level : ℚ) : NDArray :=
  let dmin := arrMin a
  let dmax := arrMax a
  a.map (fun x =>
    if FP.ltb (FP.num (level + window / 2)) x then dmax
    else if FP.leb x (FP.num (level - window / 2)) then dmin
    else
      FP.add
        (FP.mul
          (FP.div (FP.add (FP.sub x (FP.num level)) (FP.num (window / 2)))
            (FP.num window))
          (FP.sub dmax dmin))
        dmin)

/-- Modality LUT step of _pixel_process (utils.py lines 37-45). -/
def modality_step (apply_modality_lut : NDArray → Dataset → NDArray)
    (ds : Dataset) (a : NDArray) : NDArray :=
  match ds.RescaleSlope, ds.RescaleIntercept with
  | some s, some i =>
    a.map (fun x => FP.add (FP.mul x (FP.num s)) (FP.num i))
  | _, _ => apply_modality_lut a ds

/-- VOI LUT / windowing step of _pixel_process (utils.py lines 49-66). -/
def voi_step (apply_voi_lut : NDArray → Dataset → NDArray)
    (ds : Dataset) (a : NDArray) : NDArray :=
  if ds.VOILUTFunction = some "SIGMOID" then apply_voi_lut a ds
  else
    match ds.WindowCenter, ds.WindowWidth with
    | some wc, some ww => get_LUT_value_LINEAR_EXACT a ww.resolve wc.resolve
    | _, _ => apply_voi_lut a ds

/-- Presentation normalization step of _pixel_process (utils.py line 70):
x maps to (x - min) / (max - min) * 255.0. -/
def norm_step (a : NDArray) : NDArray :=
  let mn := arrMin a
  let mx := arrMax a
  a.map (fun x => FP.mul (FP.div (FP.sub x mn) (FP.sub mx mn)) (FP.num 255))

/-- MONOCHROME1 inversion step of _pixel_process (utils.py lines 72-74):
x maps to np.max(array) - x, computed after normalization. -/
def mono1_step (ds : Dataset) (a : NDArray) : NDArray :=
  if ds.PhotometricInterpretation = some "MONOCHROME1" then
    let mx := arrMax a
    a.map (fun x => FP.sub mx x)
  else a

/-- astype(uint8) on one value (utils.py line 77).  For a float in [0, 256)
the C conversion truncates toward zero, i.e. takes the floor.  For NaN or an
out-of-range value the conversion is undefined (platform dependent); those
results are modelled as NaN, meaning: no defined 8-bit value. -/
def astype_uint8 : FP → FP
  | .num q => if 0 ≤ q ∧ q < 256 then .num ((⌊q⌋ : ℤ) : ℚ) else .nan
  | .nan => .nan

/-- utils.py _pixel_process (lines 27-77): Modality LUT, VOI LUT / windowing,
presentation normalization, MONOCHROME1 inversion, uint8 quantization. -/
def pixel_process (apply_modality_lut apply_voi_lut : NDArray → Dataset → NDArray)
    (ds : Dataset) (a : NDArray) : NDArray :=
  (mono1_step ds
      (norm_step
        (voi_step apply_voi_lut ds
          (modality_step apply_modality_lut ds a)))).map astype_uint8

/-- Identity stand-in for the external LUT capabilities, used in concrete
evaluations (the branches that call them are not taken there). -/
def idLut (a : NDArray) (_ : Dataset) : NDArray := a

/-- str.lower(), modelled character by character (the program only compares
against ASCII suffixes and tokens). -/
def strToLower (s : String) : String := String.mk (s.toList.map Char.toLower)

/-- name.lower().endswith(".dcm"), the match predicate used by the directory
walk in _get_root_get_dicom_file_list (utils.py line 252). -/
def hasDcmSuffix (name : String) : Bool :=
  ".dcm".toList.isSuffixOf (strToLower name).toList

/-- pathlib PurePath.suffix of a file name: the part from the last dot, but
empty when the last dot is the leading character (dotfiles such as ".dcm"
have no suffix) or the trailing character. -/
def pySuffix (name : String) : String :=
  let cs := name.toList
  match (cs.enum.filter (fun p => p.snd = '.')).getLast? with
  | some p =>
    if 0 < p.fst ∧ p.fst < cs.length - 1 then String.mk (cs.drop p.fst) else ""
  | none => ""

mutual
/-- A filesystem: a file, or a directory with named entries (the entry list
is a mutual inductive so every recursion below is structural). -/
inductive FS where
  | file
  | dir (entries : FSList)

/-- The named entries of a directory. -/
inductive FSList where
  | nil
  | cons (name : String) (child : FS) (rest : FSList)
end

/-- Find a directory entry by name. -/
def fsLookup : FSList → String → Option FS
  | .nil, _ => none
  | .cons n c rest, s => if n = s then some c else fsLookup rest s

/-- Resolve a path in a filesystem tree. -/
def fsFind : FS → FsPath → Option FS
  | t, [] => some t
  | .file, _ :: _ => none
  | .dir es, s :: rest =>
    match fsLookup es s with
    | some c => fsFind c rest
    | none => none

/-- Path.is_file(): the path resolves to a file. -/
def fsIsFile (fs : FS) (p : FsPath) : Bool :=
  match fsFind fs p with
  | some .file => true
  | _ => false

/-- os.walk collection over a directory entry list: every file under it,
recursively, whose lowercased name ends with ".dcm" (utils.py lines 250-256;
os.walk enumeration order is irrelevant: the caller sorts the aggregate). -/
def walkEntries : FSList → FsPath → List FsPath
  | .nil, _ => []
  | .cons n .file rest, p =>
    (if hasDcmSuffix n then [p ++ [n]] else []) ++ walkEntries rest p
  | .cons n (.dir es) rest, p =>
    walkEntries es (p ++ [n]) ++ walkEntries rest p

/-- os.walk collection of _get_root_get_dicom_file_list for a tree node. -/
def walkDcm : FS → FsPath → List FsPath
  | .file, _ => []
  | .dir es, p => walkEntries es p

/-- Existence/file/dir check plus collection for one origin path
(utils.py lines 239-256). -/
def collect_origin (fs : FS) (o : FsPath) : Res (List FsPath) :=
  match fsFind fs o with
  | none => .error ("File or folder " ++ String.intercalate "/" o ++ " does not exist")
  | some .file =>
    if strToLower (pySuffix (o.getLastD "")) = ".dcm" then .ok [o]
    else .error "Input file type should be a DICOM file"
  | some (.dir es) => .ok (walkDcm (.dir es) o)

/-- Sequential iteration raising the first error, as the Python for loop. -/
def resMapM {α β : Type} (f : α → Res β) : List α → Res (List β)
  | [] => .ok []
  | x :: xs =>
    match f x with
    | .error e => .error e
    | .ok b =>
      match resMapM f xs with
      | .error e => .error e
      | .ok bs => .ok (b :: bs)

/-- Code-point lexicographic order on character lists, as Python string
comparison. -/
def lexLe : List Char → List Char → Bool
  | [], _ => true
  | _ :: _, [] => false
  | a :: as, b :: bs =>
    if a.toNat < b.toNat then true
    else if b.toNat < a.toNat then false
    else lexLe as bs

def pathStr (p : FsPath) : String := String.intercalate "/" p

/-- Path ordering used by list.sort() on pathlib paths: comparison of the
path strings (POSIX semantics). -/
def pathLe (p q : FsPath) : Prop := lexLe (pathStr p).toList (pathStr q).toList = true

instance : DecidableRel pathLe := fun p q => by
  unfold pathLe
  infer_instance

/-- dicom_file_list.sort() (utils.py line 258): a stable comparison sort; any
stable sort computes the same list, modelled by insertion sort. -/
def sortPaths (l : List FsPath) : List FsPath := List.insertionSort pathLe l

/-- utils.py _get_root_get_dicom_file_list (lines 218-271), with the origin
input already normalized to a list of paths (a single path is the singleton
list). -/
def get_root_get_dicom_file_list (fs : FS) (origin_input : List FsPath)
    (target_root : Option FsPath) : Res (FsPath × List FsPath) :=
  match resMapM (collect_origin fs) origin_input with
  | .error e => .error e
  | .ok ls =>
    let dicom_file_list := sortPaths ls.flatten
    let root_folder :=
      match target_root with
      | none => (origin_input.headD []).dropLast
      | some r => r
    .ok (root_folder, dicom_file_list)

/-- utils.py _get_metadata (lines 295-306): try/except fallbacks "Ser"/"Ins". -/
def get_metadata (ds : Dataset) : String × String :=
  (ds.SeriesNumber.getD "Ser", ds.InstanceNumber.getD "Ins")

/-- utils.py _get_export_file_path (lines 274-292).  In anonymous mode the
code subscripts patient_dict, which raises TypeError when the dict is None
and KeyError when the key is absent. -/
def get_export_file_path (ds : Dataset) (file_path : FsPath)
    (target_root : FsPath) (filetype : String) (anonymous : Bool)
    (patient_dict : Option (List (FsPath × FsPath))) : Res FsPath :=
  if anonymous then
    match patient_dict with
    | none => .error "TypeError: NoneType object is not subscriptable"
    | some d =>
      match d.lookup file_path with
      | some p => .ok p
      | none => .error "KeyError"
  else
    let m := get_metadata ds
    .ok (target_root ++ [m.fst ++ "_" ++ m.snd ++ "." ++ filetype])

/-- Photometric interpretations triggering the BGR channel fix-up
(utils.py lines 168-169). -/
def color_pi_list : List String :=
  ["YBR_RCT", "RGB", "YBR_ICT", "YBR_PARTIAL_420", "YBR_FULL_422", "YBR_FULL", "PALETTE COLOR"]

def piColor (ds : Dataset) : Bool :=
  match ds.PhotometricInterpretation with
  | some pi => decide (pi ∈ color_pi_list)
  | none => false

/-- Produce n consecutive chunks of size k from the front of a list. -/
def chunkGo : Nat → Nat → List FP → List (List FP)
  | 0, _, _ => []
  | n + 1, k, l => l.take k :: chunkGo n k (l.drop k)

/-- Cut a flat list into consecutive chunks of size k (k > 0 in every use);
the chunk count is the rounded-up division of the length by k. -/
def chunkList (k : Nat) (l : List FP) : List (List FP) :=
  chunkGo ((l.length + k - 1) / k) k l

/-- Within one axis-2 chunk (laid out as blocks of size inner, one block per
axis-2 index), swap block 0 and block 2, keep the rest. -/
def swapBlocks (inner : Nat) (chunk : List FP) : List FP :=
  ((chunk.drop (2 * inner)).take inner) ++ ((chunk.drop inner).take inner)
    ++ (chunk.take inner) ++ (chunk.drop (3 * inner))

/-- The fancy assignment pixel_array[:, :, [0, 2]] = pixel_array[:, :, [2, 0]]
(utils.py line 171): swaps the axis-2 index-0 and index-2 slices.  numpy
raises IndexError when the array has fewer than 3 axes or axis 2 is shorter
than 3.  On the row-major data this swaps, within every chunk belonging to
one (axis-0, axis-1) pair, the blocks at axis-2 positions 0 and 2; for the
3-axis arrays this converter admits, inner = 1 and the chunk size is the
channel count. -/
def axis2Swap (a : NDArray) : Res NDArray :=
  if a.shape.length < 3 then .error "IndexError: too many indices for array"
  else
    let d2 := a.shape.getD 2 0
    if d2 < 3 then .error "IndexError: index 2 is out of bounds for axis 2"
    else
      let inner := (a.shape.drop 3).prod
      .ok { shape := a.shape,
            data := ((chunkList (d2 * inner) a.data).map (swapBlocks inner)).flatten }

/-- BGR channel fix-up step of _ds_to_file (utils.py lines 168-171). -/
def color_fix (ds : Dataset) (a : NDArray) : Res NDArray :=
  if piColor ds then axis2Swap a else .ok a

/-- The value _ds_to_file returns: Python True, or a printable message. -/
inductive TaskReturn where
  | retTrue
  | retMsg (s : String)
  deriving DecidableEq, Repr

/-- One task's observable outcome: its return value and the files it wrote. -/
structure TaskOutcome where
  ret : TaskReturn
  writes : List FsPath
  deriving DecidableEq, Repr

def sop_skip_msg (file_path : FsPath) (name : String) : String :=
  pathStr file_path ++ " cannot be converted.\n" ++ name ++ " is currently not supported"

def multiframe_skip_msg (file_path : FsPath) : String :=
  pathStr file_path ++ " cannot be converted.\nMultiframe images are currently not supported"

/-- utils.py _ds_to_file (lines 123-184).  dcmread models pydicom.dcmread
(which may raise); ds.pixelData models the fallible ds.pixel_array access.
No exception is caught anywhere in this function: every error propagates to
the caller. -/
def ds_to_file (dcmread : FsPath → Res Dataset)
    (apply_modality_lut apply_voi_lut : NDArray → Dataset → NDArray)
    (file_path : FsPath) (target_root : FsPath) (filetype : String)
    (anonymous : Bool) (patient_dict : Option (List (FsPath × FsPath))) :
    Res TaskOutcome :=
  match dcmread file_path with
  | .error e => .error e
  | .ok ds =>
    match is_unsupported ds with
    | some name => .ok { ret := .retMsg (sop_skip_msg file_path name), writes := [] }
    | none =>
      match ds.pixelData with
      | .error e => .error e
      | .ok pixel_array =>
        if pixel_array.shape.length = 3 ∧ pixel_array.shape.getD 2 0 ≠ 3 then
          .ok { ret := .retMsg (multiframe_skip_msg file_path), writes := [] }
        else
          match color_fix ds (pixel_process apply_modality_lut apply_voi_lut ds pixel_array) with
          | .error e => .error e
          | .ok _ =>
            match get_export_file_path ds file_path target_root filetype anonymous patient_dict with
            | .error e => .error e
            | .ok fp => .ok { ret := .retTrue, writes := [fp] }

/-- The recognized filetype tokens (utils.py line 197). -/
def valid_filetypes : List String := ["jpg", "png", "jpeg", "bmp", "img", "tiff"]

/-- Filetype defaulting and validation of _dicom_convertor (utils.py lines
195-198). -/
def resolve_filetype : Option String → Res String
  | none => .ok "bmp"
  | some ft =>
    if strToLower ft ∈ valid_filetypes then .ok ft
    else .error "Target file type should be jpg, png, or bmp"

/-- utils.py _dicom_convertor (lines 187-215).  Both executor modes collect
each task's return value in submission order, and a task exception re-raises
at collection, so the multiprocessing flag does not change the returned
value; the batch returns True only when no task raised. -/
def dicom_convertor (fs : FS) (dcmread : FsPath → Res Dataset)
    (apply_modality_lut apply_voi_lut : NDArray → Dataset → NDArray)
    (origin : List FsPath) (target_root : Option FsPath)
    (filetype : Option String) (anonymous : Bool) (_multiprocessing : Bool) :
    Res (Bool × List TaskOutcome) :=
  match resolve_filetype filetype with
  | .error e => .error e
  | .ok ft =>
    match get_root_get_dicom_file_list fs origin target_root with
    | .error e => .error e
    | .ok (root, dicom_file_list) =>
      let full_path_dict : Option (List (FsPath × FsPath)) := none
      match resMapM
          (fun fp => ds_to_file dcmread apply_modality_lut apply_voi_lut fp root ft anonymous full_path_dict)
          dicom_file_list with
      | .error e => .error e
      | .ok outs => .ok (true, outs)

/-! ## Specification-side definitions and concrete example data -/

/-- Rational-level per-sample value of _get_LUT_value_LINEAR_EXACT, with the
precedence the np.piecewise assignment order gives the two threshold masks
(the data_max clause wins where both hold, which requires window < 0). -/
def linear_exact_value (w c dmin dmax x : ℚ) : ℚ :=
  if c + w / 2 < x then dmax
  else if x ≤ c - w / 2 then dmin
  else (x - c + w / 2) / w * (dmax - dmin) + dmin

/-- The per-sample windowing map exactly as the claim C3 words it, reading
its clause list in order: dmin if x <= c - w/2; dmax if x > c + w/2;
otherwise the linear interpolation.  Modelled from the claim for the
refinement comparison with linear_exact_value. -/
def linear_exact_claim_value (w c dmin dmax x : ℚ) : ℚ :=
  if x ≤ c - w / 2 then dmin
  else if c + w / 2 < x then dmax
  else (x - c + w / 2) / w * (dmax - dmin) + dmin

/-- min over a nonempty rational list, as a fold like numpy. -/
def qListMin (q0 : ℚ) (qs : List ℚ) : ℚ := qs.foldl min q0

/-- max over a nonempty rational list, as a fold like numpy. -/
def qListMax (q0 : ℚ) (qs : List ℚ) : ℚ := qs.foldl max q0

/-- The files one origin path contributes to discovery when it is accepted:
itself when a file, the recursive matches when a directory. -/
def collectMatches (fs : FS) (o : FsPath) : List FsPath :=
  match fsFind fs o with
  | none => []
  | some .file => [o]
  | some (.dir es) => walkDcm (.dir es) o

/-- A dataset whose SOP class is Encapsulated PDF Storage (skip table hit). -/
def dsPdf : Dataset :=
  { SOPClassUID := "1.2.840.10008.5.1.4.1.1.104.1",
    RescaleSlope := none, RescaleIntercept := none,
    VOILUTFunction := none, WindowCenter := none, WindowWidth := none,
    PhotometricInterpretation := none,
    SeriesNumber := none, InstanceNumber := none,
    pixelData := .error "pixel data never touched for a skipped SOP class" }

/-- A plain monochrome dataset with explicit rescale and window tags
(slope 1, intercept 0, center 1, width 4, MONOCHROME2). -/
def dsWindowed : Dataset :=
  { SOPClassUID := "1.2.840.10008.5.1.4.1.1.2",
    RescaleSlope := some 1, RescaleIntercept := some 0,
    VOILUTFunction := none,
    WindowCenter := some (.scalar 1), WindowWidth := some (.scalar 4),
    PhotometricInterpretation := some "MONOCHROME2",
    SeriesNumber := some "1", InstanceNumber := some "1",
    pixelData := .ok { shape := [3], data := [.num 0, .num 1, .num 2] } }

/-- dsWindowed with a flat (constant) pixel array and a window around 5. -/
def dsFlat : Dataset :=
  { dsWindowed with
    WindowCenter := some (.scalar 5), WindowWidth := some (.scalar 2),
    pixelData := .ok { shape := [2], data := [.num 5, .num 5] } }

/-- dsWindowed with the window center stored as a MultiValue and a negative
window width stored as a scalar. -/
def dsNegWidth : Dataset :=
  { dsWindowed with
    WindowCenter := some (.scalar 0), WindowWidth := some (.scalar (-2)) }

/-- dsWindowed with MultiValue window tags, exercising first-element
resolution. -/
def dsMulti : Dataset :=
  { dsWindowed with
    WindowCenter := some (.multi 1 [9]), WindowWidth := some (.multi 4 [80]) }

/-- An RGB color dataset. -/
def dsRGB : Dataset :=
  { dsWindowed with PhotometricInterpretation := some "RGB" }

def arr012 : NDArray := { shape := [3], data := [.num 0, .num 1, .num 2] }

def arrFlat : NDArray := { shape := [2], data := [.num 5, .num 5] }

def arr05 : NDArray := { shape := [2], data := [.num 0, .num 5] }

def arr113 : NDArray := { shape := [1, 1, 3], data := [.num 1, .num 2, .num 3] }

/-- Directory d containing b.dcm, a.dcm, c.dcm (the discovery example). -/
def fsABC : FS :=
  .dir (.cons "d"
    (.dir (.cons "b.dcm" .file (.cons "a.dcm" .file (.cons "c.dcm" .file .nil)))) .nil)

/-- A single file literally named ".dcm". -/
def fsDot : FS := .dir (.cons ".dcm" .file .nil)

/-- Directory d containing a.dcm and b.dcm. -/
def fsAB : FS :=
  .dir (.cons "d" (.dir (.cons "a.dcm" .file (.cons "b.dcm" .file .nil))) .nil)

/-- A decoder that fails on d/a.dcm (a decode error) and decodes every other
file to the PDF dataset. -/
def decodeFailA : FsPath → Res Dataset := fun p =>
  if p = ["d", "a.dcm"] then .error "InvalidDicomError: file is missing DICOM header"
  else .ok dsPdf

/-- A decoder that decodes every file to the PDF dataset. -/
def decodePdf : FsPath → Res Dataset := fun _ => .ok dsPdf

/-- The skip outcome produced for a file decoding to the PDF dataset. -/
def pdfSkipOutcome (fp : FsPath) : TaskOutcome :=
  { ret := .retMsg (sop_skip_msg fp "Encapsulated PDF Storage"), writes := [] }

/-! ## Helper lemmas -/

theorem FP.add_num (a b : ℚ) : FP.add (.num a) (.num b) = .num (a + b) := rfl

theorem FP.sub_num (a b : ℚ) : FP.sub (.num a) (.num b) = .num (a - b) := rfl

theorem FP.mul_num (a b : ℚ) : FP.mul (.num a) (.num b) = .num (a * b) := rfl

theorem FP.div_num (a b : ℚ) :
    FP.div (.num a) (.num b) = if b = 0 then .nan else .num (a / b) := rfl

theorem FP.leb_num (a b : ℚ) : FP.leb (.num a) (.num b) = decide (a ≤ b) := rfl

theorem FP.ltb_num (a b : ℚ) : FP.ltb (.num a) (.num b) = decide (a < b) := rfl

theorem FP.fmin_num (a b : ℚ) : FP.fmin (.num a) (.num b) = .num (min a b) := rfl

theorem FP.fmax_num (a b : ℚ) : FP.fmax (.num a) (.num b) = .num (max a b) := rfl

theorem FP.add_nan_left (x : FP) : FP.add .nan x = .nan := by cases x <;> rfl

theorem FP.add_nan_right (x : FP) : FP.add x .nan = .nan := by cases x <;> rfl

theorem FP.sub_nan_left (x : FP) : FP.sub .nan x = .nan := by cases x <;> rfl

theorem FP.sub_nan_right (x : FP) : FP.sub x .nan = .nan := by cases x <;> rfl

theorem FP.mul_nan_left (x : FP) : FP.mul .nan x = .nan := by cases x <;> rfl

theorem FP.mul_nan_right (x : FP) : FP.mul x .nan = .nan := by cases x <;> rfl

theorem FP.div_nan_left (x : FP) : FP.div .nan x = .nan := by cases x <;> rfl

theorem FP.div_nan_right (x : FP) : FP.div x .nan = .nan := by cases x <;> rfl

theorem astype_uint8_nan : astype_uint8 .nan = .nan := rfl

theorem astype_uint8_num_def (q : ℚ) :
    astype_uint8 (.num q) = if 0 ≤ q ∧ q < 256 then .num ((⌊q⌋ : ℤ) : ℚ) else .nan := rfl

theorem resMapM_ok_iff {α β : Type} (f : α → Res β) (l : List α) :
    (∃ bs, resMapM f l = .ok bs) ↔ ∀ a ∈ l, ∃ b, f a = .ok b := by
  induction l with
  | nil => simp [resMapM]
  | cons x xs ih =>
    cases hfx : f x with
    | error e =>
      simp only [resMapM, hfx]
      constructor
      · rintro ⟨bs, h⟩; cases h
      · intro h
        rcases h x (by simp) with ⟨b, hb⟩
        rw [hfx] at hb; cases hb
    | ok b =>
      cases hrec : resMapM f xs with
      | error e =>
        simp only [resMapM, hfx, hrec]
        constructor
        · rintro ⟨bs, h⟩; cases h
        · intro h
          rcases ih.mpr (fun a ha => h a (by simp [ha])) with ⟨bs, hbs⟩
          rw [hrec] at hbs; cases hbs
      | ok bs =>
        simp only [resMapM, hfx, hrec]
        constructor
        · intro _ a ha
          rcases List.mem_cons.mp ha with rfl | ha2
          · exact ⟨b, hfx⟩
          · exact ih.mp ⟨bs, hrec⟩ a ha2
        · intro _
          exact ⟨b :: bs, rfl⟩

theorem resMapM_ok_map {α β : Type} (f : α → Res β) (g : α → β) :
    ∀ l : List α, (∀ a ∈ l, f a = .ok (g a)) → resMapM f l = .ok (l.map g) := by
  intro l
  induction l with
  | nil => intro _; rfl
  | cons x xs ih =>
    intro h
    have hx := h x (by simp)
    have hxs := ih (fun a ha => h a (by simp [ha]))
    simp [resMapM, hx, hxs]

theorem resMapM_ok_eq_map {α β : Type} (f : α → Res β) (g : α → β)
    (hg : ∀ a b, f a = .ok b → b = g a) :
    ∀ (l : List α) (bs : List β), resMapM f l = .ok bs → bs = l.map g := by
  intro l
  induction l with
  | nil =>
    intro bs h
    simp only [resMapM] at h
    cases h
    rfl
  | cons x xs ih =>
    intro bs h
    cases hfx : f x with
    | error e =>
      simp only [resMapM, hfx] at h
      cases h
    | ok b =>
      cases hrec : resMapM f xs with
      | error e =>
        simp only [resMapM, hfx, hrec] at h
        cases h
      | ok bs2 =>
        simp only [resMapM, hfx, hrec] at h
        cases h
        rw [List.map_cons, ← hg x b hfx, ← ih bs2 hrec]

theorem resMapM_ok_mem {α β : Type} (f : α → Res β) :
    ∀ (l : List α) (bs : List β), resMapM f l = .ok bs → ∀ b ∈ bs, ∃ a ∈ l, f a = .ok b := by
  intro l
  induction l with
  | nil =>
    intro bs h b hb
    simp only [resMapM] at h
    cases h
    simp at hb
  | cons x xs ih =>
    intro bs h b hb
    cases hfx : f x with
    | error e =>
      simp only [resMapM, hfx] at h
      cases h
    | ok b0 =>
      cases hrec : resMapM f xs with
      | error e =>
        simp only [resMapM, hfx, hrec] at h
        cases h
      | ok bs2 =>
        simp only [resMapM, hfx, hrec] at h
        cases h
        rcases List.mem_cons.mp hb with rfl | hb2
        · exact ⟨x, by simp, hfx⟩
        · rcases ih bs2 hrec b hb2 with ⟨a, ha, hfa⟩
          exact ⟨a, by simp [ha], hfa⟩

theorem qListMin_le_head (q0 : ℚ) (qs : List ℚ) : qListMin q0 qs ≤ q0 := by
  induction qs generalizing q0 with
  | nil => exact le_refl q0
  | cons x xs ih =>
    calc qListMin q0 (x :: xs) = qListMin (min q0 x) xs := rfl
    _ ≤ min q0 x := ih (min q0 x)
    _ ≤ q0 := min_le_left _ _

theorem qListMin_le (q0 : ℚ) (qs : List ℚ) : ∀ x ∈ q0 :: qs, qListMin q0 qs ≤ x := by
  induction qs generalizing q0 with
  | nil =>
    intro x hx
    simp only [List.mem_singleton] at hx
    subst hx
    exact le_refl _
  | cons y ys ih =>
    intro x hx
    have hred : qListMin q0 (y :: ys) = qListMin (min q0 y) ys := rfl
    rcases List.mem_cons.mp hx with rfl | hx2
    · rw [hred]
      exact le_trans (qListMin_le_head _ _) (min_le_left _ _)
    · rcases List.mem_cons.mp hx2 with rfl | hx3
      · rw [hred]
        exact le_trans (qListMin_le_head _ _) (min_le_right _ _)
      · rw [hred]
        exact ih (min q0 y) x (by simp [hx3])

theorem qListMin_mem (q0 : ℚ) (qs : List ℚ) : qListMin q0 qs ∈ q0 :: qs := by
  induction qs generalizing q0 with
  | nil => simp [qListMin]
  | cons y ys ih =>
    have hred : qListMin q0 (y :: ys) = qListMin (min q0 y) ys := rfl
    rw [hred]
    rcases List.mem_cons.mp (ih (min q0 y)) with he | hm
    · rcases min_choice q0 y with h1 | h1
      · rw [he, h1]; simp
      · rw [he, h1]; simp
    · simp [hm]

theorem qListMax_ge_head (q0 : ℚ) (qs : List ℚ) : q0 ≤ qListMax q0 qs := by
  induction qs generalizing q0 with
  | nil => exact le_refl q0
  | cons x xs ih =>
    calc q0 ≤ max q0 x := le_max_left _ _
    _ ≤ qListMax (max q0 x) xs := ih (max q0 x)
    _ = qListMax q0 (x :: xs) := rfl

theorem qListMax_ge (q0 : ℚ) (qs : List ℚ) : ∀ x ∈ q0 :: qs, x ≤ qListMax q0 qs := by
  induction qs generalizing q0 with
  | nil =>
    intro x hx
    simp only [List.mem_singleton] at hx
    subst hx
    exact le_refl _
  | cons y ys ih =>
    intro x hx
    have hred : qListMax q0 (y :: ys) = qListMax (max q0 y) ys := rfl
    rcases List.mem_cons.mp hx with rfl | hx2
    · rw [hred]
      exact le_trans (le_max_left _ _) (qListMax_ge_head _ _)
    · rcases List.mem_cons.mp hx2 with rfl | hx3
      · rw [hred]
        exact le_trans (le_max_right _ _) (qListMax_ge_head _ _)
      · rw [hred]
        exact ih (max q0 y) x (by simp [hx3])

theorem qListMax_mem (q0 : ℚ) (qs : List ℚ) : qListMax q0 qs ∈ q0 :: qs := by
  induction qs generalizing q0 with
  | nil => simp [qListMax]
  | cons y ys ih =>
    have hred : qListMax q0 (y :: ys) = qListMax (max q0 y) ys := rfl
    rw [hred]
    rcases List.mem_cons.mp (ih (max q0 y)) with he | hm
    · rcases max_choice q0 y with h1 | h1
      · rw [he, h1]; simp
      · rw [he, h1]; simp
    · simp [hm]

theorem qListMax_eq_of (q0 : ℚ) (qs : List ℚ) (y : ℚ)
    (hub : ∀ x ∈ q0 :: qs, x ≤ y) (hmem : y ∈ q0 :: qs) : qListMax q0 qs = y :=
  le_antisymm (hub _ (qListMax_mem q0 qs)) (qListMax_ge q0 qs y hmem)

theorem foldl_fmin_num (qs : List ℚ) : ∀ q0 : ℚ,
    (qs.map FP.num).foldl FP.fmin (FP.num q0) = FP.num (qListMin q0 qs) := by
  induction qs with
  | nil => intro q0; rfl
  | cons x xs ih => intro q0; simpa [qListMin, List.foldl_cons] using ih (min q0 x)

theorem foldl_fmax_num (qs : List ℚ) : ∀ q0 : ℚ,
    (qs.map FP.num).foldl FP.fmax (FP.num q0) = FP.num (qListMax q0 qs) := by
  induction qs with
  | nil => intro q0; rfl
  | cons x xs ih => intro q0; simpa [qListMax, List.foldl_cons] using ih (max q0 x)

theorem arrMin_num (s : List Nat) (q0 : ℚ) (qs : List ℚ) :
    arrMin { shape := s, data := (q0 :: qs).map FP.num } = FP.num (qListMin q0 qs) := by
  simpa [arrMin] using foldl_fmin_num qs q0

theorem arrMax_num (s : List Nat) (q0 : ℚ) (qs : List ℚ) :
    arrMax { shape := s, data := (q0 :: qs).map FP.num } = FP.num (qListMax q0 qs) := by
  simpa [arrMax] using foldl_fmax_num qs q0

theorem forall₂_map_map {α β γ : Type} (R : β → γ → Prop) (f : α → β) (g : α → γ) :
    ∀ l : List α, (∀ x ∈ l, R (f x) (g x)) → List.Forall₂ R (l.map f) (l.map g) := by
  intro l
  induction l with
  | nil => intro _; simp
  | cons x xs ih =>
    intro h
    simp only [List.map_cons]
    exact List.Forall₂.cons (h x (by simp)) (ih (fun a ha => h a (by simp [ha])))

theorem linear_exact_pointwise (w c dmin dmax x : ℚ) :
    (if FP.ltb (FP.num (c + w / 2)) (FP.num x) then FP.num dmax
     else if FP.leb (FP.num x) (FP.num (c - w / 2)) then FP.num dmin
     else
       FP.add
         (FP.mul
           (FP.div (FP.add (FP.sub (FP.num x) (FP.num c)) (FP.num (w / 2))) (FP.num w))
           (FP.sub (FP.num dmax) (FP.num dmin)))
         (FP.num dmin))
    = FP.num (linear_exact_value w c dmin dmax x) := by
  by_cases h1 : c + w / 2 < x
  · simp [FP.ltb, linear_exact_value, h1]
  · by_cases h2 : x ≤ c - w / 2
    · simp [FP.ltb, FP.leb, linear_exact_value, h1, h2]
    · have hw : 0 < w := by
        push_neg at h1 h2
        linarith
      have hw0 : w ≠ 0 := ne_of_gt hw
      simp [FP.ltb, FP.leb, linear_exact_value, h1, h2, FP.add, FP.sub, FP.mul, FP.div, hw0]

theorem get_LUT_values (s : List Nat) (q0 : ℚ) (qs : List ℚ) (w c : ℚ) :
    get_LUT_value_LINEAR_EXACT { shape := s, data := (q0 :: qs).map FP.num } w c =
      { shape := s,
        data := (q0 :: qs).map (fun x =>
          FP.num (linear_exact_value w c (qListMin q0 qs) (qListMax q0 qs) x)) } := by
  simp only [get_LUT_value_LINEAR_EXACT, NDArray.map, arrMin_num, arrMax_num, List.map_map]
  congr 1
  apply List.map_congr_left
  intro x hx
  exact linear_exact_pointwise w c _ _ x

theorem voi_step_values (vLut : NDArray → Dataset → NDArray) (ds : Dataset)
    (s : List Nat) (q0 : ℚ) (qs : List ℚ) (wc ww : TagValue)
    (hsig : ds.VOILUTFunction ≠ some "SIGMOID")
    (hwc : ds.WindowCenter = some wc) (hww : ds.WindowWidth = some ww) :
    voi_step vLut ds { shape := s, data := (q0 :: qs).map FP.num } =
      { shape := s,
        data := (q0 :: qs).map (fun x =>
          FP.num (linear_exact_value ww.resolve wc.resolve (qListMin q0 qs) (qListMax q0 qs) x)) } := by
  unfold voi_step
  rw [if_neg hsig, hwc, hww]
  exact get_LUT_values s q0 qs ww.resolve wc.resolve

theorem modality_step_values (amLut : NDArray → Dataset → NDArray) (ds : Dataset)
    (s : List Nat) (l : List ℚ) (slope intercept : ℚ)
    (hs : ds.RescaleSlope = some slope) (hi : ds.RescaleIntercept = some intercept) :
    modality_step amLut ds { shape := s, data := l.map FP.num } =
      { shape := s, data := (l.map (fun q => q * slope + intercept)).map FP.num } := by
  unfold modality_step
  rw [hs, hi]
  simp only [NDArray.map, List.map_map]
  rfl

theorem norm_step_values (s : List Nat) (q0 : ℚ) (qs : List ℚ) (m M : ℚ)
    (hm : qListMin q0 qs = m) (hM : qListMax q0 qs = M) (hlt : m < M) :
    norm_step { shape := s, data := (q0 :: qs).map FP.num } =
      { shape := s, data := (q0 :: qs).map (fun x => FP.num ((x - m) / (M - m) * 255)) } := by
  have hMm : M - m ≠ 0 := sub_ne_zero.mpr (ne_of_gt hlt)
  simp only [norm_step, arrMin_num, arrMax_num, hm, hM, NDArray.map, List.map_map]
  congr 1
  apply List.map_congr_left
  intro x hx
  simp [FP.sub, FP.div, FP.mul, hMm]

theorem mono1_step_values (ds : Dataset) (s : List Nat) (t0 : ℚ) (ts : List ℚ)
    (hpi : ds.PhotometricInterpretation = some "MONOCHROME1")
    (hmax : qListMax t0 ts = 255) :
    mono1_step ds { shape := s, data := (t0 :: ts).map FP.num } =
      { shape := s, data := (t0 :: ts).map (fun x => FP.num (255 - x)) } := by
  simp only [mono1_step, if_pos hpi, arrMax_num, hmax, NDArray.map, List.map_map]
  rfl

theorem mono1_step_skip (ds : Dataset) (a : NDArray)
    (hpi : ds.PhotometricInterpretation ≠ some "MONOCHROME1") :
    mono1_step ds a = a := by
  simp only [mono1_step, if_neg hpi]

theorem astype_uint8_num (t : ℚ) (h0 : 0 ≤ t) (h1 : t ≤ 255) :
    astype_uint8 (FP.num t) = FP.num ((⌊t⌋ : ℤ) : ℚ) := by
  have h2 : t < 256 := lt_of_le_of_lt h1 (by norm_num)
  simp [astype_uint8, h0, h2]

theorem floor_pair_bounds (t : ℚ) (h0 : 0 ≤ t) (h1 : t ≤ 255) :
    0 ≤ ⌊255 - t⌋ ∧ 0 ≤ ⌊t⌋ ∧ 254 ≤ ⌊255 - t⌋ + ⌊t⌋ ∧ ⌊255 - t⌋ + ⌊t⌋ ≤ 255 := by
  have f1 : (↑⌊t⌋ : ℚ) ≤ t := Int.floor_le t
  have f2 : (↑⌊255 - t⌋ : ℚ) ≤ 255 - t := Int.floor_le _
  have g1 : t - 1 < (↑⌊t⌋ : ℚ) := Int.sub_one_lt_floor t
  have g2 : (255 - t) - 1 < (↑⌊255 - t⌋ : ℚ) := Int.sub_one_lt_floor _
  refine ⟨Int.floor_nonneg.mpr (by linarith), Int.floor_nonneg.mpr h0, ?_, ?_⟩
  · have hq : (253 : ℚ) < ((⌊255 - t⌋ + ⌊t⌋ : ℤ) : ℚ) := by push_cast; linarith
    have hz : (253 : ℤ) < ⌊255 - t⌋ + ⌊t⌋ := by exact_mod_cast hq
    omega
  · have hq : ((⌊255 - t⌋ + ⌊t⌋ : ℤ) : ℚ) ≤ 255 := by push_cast; linarith
    exact_mod_cast hq

theorem lexLe_total : ∀ as bs : List Char, lexLe as bs = true ∨ lexLe bs as = true := by
  intro as
  induction as with
  | nil => intro bs; left; rfl
  | cons a as2 ih =>
    intro bs
    cases bs with
    | nil => right; rfl
    | cons b bs2 =>
      by_cases h1 : a.toNat < b.toNat
      · left; simp [lexLe, h1]
      · by_cases h2 : b.toNat < a.toNat
        · right; simp [lexLe, h2]
        · rcases ih bs2 with h | h
          · left; simp [lexLe, h1, h2, h]
          · right; simp [lexLe, h1, h2, h]

theorem lexLe_trans : ∀ as bs cs : List Char,
    lexLe as bs = true → lexLe bs cs = true → lexLe as cs = true := by
  intro as
  induction as with
  | nil => intro bs cs _ _; rfl
  | cons a as2 ih =>
    intro bs cs hab hbc
    cases bs with
    | nil => simp [lexLe] at hab
    | cons b bs2 =>
      cases cs with
      | nil => simp [lexLe] at hbc
      | cons c cs2 =>
        simp only [lexLe] at hab hbc ⊢
        by_cases h1 : a.toNat < b.toNat
        · by_cases h2 : b.toNat < c.toNat
          · have hac : a.toNat < c.toNat := lt_trans h1 h2
            simp [hac]
          · by_cases h3 : c.toNat < b.toNat
            · simp [h2, h3] at hbc
            · have hac : a.toNat < c.toNat := by omega
              simp [hac]
        · by_cases h4 : b.toNat < a.toNat
          · simp [h1, h4] at hab
          · by_cases h2 : b.toNat < c.toNat
            · have hac : a.toNat < c.toNat := by omega
              simp [hac]
            · by_cases h3 : c.toNat < b.toNat
              · simp [h2, h3] at hbc
              · have hrec := ih bs2 cs2 (by simpa [h1, h4] using hab) (by simpa [h2, h3] using hbc)
                have hac1 : ¬ a.toNat < c.toNat := by omega
                have hac2 : ¬ c.toNat < a.toNat := by omega
                simp [hac1, hac2, hrec]

instance : IsTotal FsPath pathLe :=
  ⟨fun p q => lexLe_total (pathStr p).toList (pathStr q).toList⟩

instance : IsTrans FsPath pathLe :=
  ⟨fun _ _ _ hpq hqr => lexLe_trans _ _ _ hpq hqr⟩

theorem chunkGo_flatten (k : Nat) : ∀ (n : Nat) (l : List FP), l.length ≤ n * k →
    (chunkGo n k l).flatten = l := by
  intro n
  induction n with
  | zero =>
    intro l hl
    have h0 : l = [] := List.eq_nil_of_length_eq_zero (by simpa using hl)
    subst h0
    rfl
  | succ n ih =>
    intro l hl
    simp only [chunkGo, List.flatten_cons]
    have hd : (l.drop k).length ≤ n * k := by
      rw [List.length_drop]
      rw [Nat.succ_mul] at hl
      omega
    rw [ih (l.drop k) hd]
    exact List.take_append_drop k l

theorem chunkList_flatten (k : Nat) (l : List FP) (hk : k ≠ 0) :
    (chunkList k l).flatten = l := by
  have hk1 : 0 < k := Nat.pos_of_ne_zero hk
  apply chunkGo_flatten
  rw [Nat.mul_comm]
  have h := Nat.div_add_mod (l.length + k - 1) k
  have hlt : (l.length + k - 1) % k < k := Nat.mod_lt _ hk1
  omega

theorem chunkGo_uniform (k : Nat) : ∀ (n : Nat) (l : List FP), l.length = n * k →
    ∀ c ∈ chunkGo n k l, c.length = k := by
  intro n
  induction n with
  | zero => intro l _ c hc; simp [chunkGo] at hc
  | succ n ih =>
    intro l hl c hc
    simp only [chunkGo, List.mem_cons] at hc
    have hkl : k ≤ l.length := by
      rw [hl, Nat.succ_mul]
      omega
    rcases hc with rfl | hc2
    · rw [List.length_take]
      omega
    · refine ih (l.drop k) ?_ c hc2
      rw [List.length_drop, hl, Nat.succ_mul]
      omega

theorem chunkList_uniform (k : Nat) (l : List FP) (hk : k ≠ 0) (hdvd : k ∣ l.length) :
    ∀ c ∈ chunkList k l, c.length = k := by
  rcases hdvd with ⟨m, hm⟩
  have hk1 : 0 < k := Nat.pos_of_ne_zero hk
  have hq : (l.length + k - 1) / k = m := by
    rw [hm]
    have h1 : k * m + k - 1 = k - 1 + m * k := by
      rw [Nat.mul_comm k m]
      omega
    rw [h1, Nat.add_mul_div_right _ _ hk1, Nat.div_eq_of_lt (by omega)]
    omega
  intro c hc
  refine chunkGo_uniform k m l ?_ c ?_
  · rw [hm, Nat.mul_comm]
  · unfold chunkList at hc
    rw [hq] at hc
    exact hc

theorem chunkList_cons_chunk (k : Nat) (c r : List FP)
    (hc : c.length = k) (hk : k ≠ 0) :
    chunkList k (c ++ r) = c :: chunkList k r := by
  have hk1 : 0 < k := Nat.pos_of_ne_zero hk
  unfold chunkList
  have hlen : (c ++ r).length = r.length + k := by
    simp [hc]
    omega
  have hq : ((c ++ r).length + k - 1) / k = (r.length + k - 1) / k + 1 := by
    rw [hlen]
    have h1 : r.length + k + k - 1 = (r.length + k - 1) + 1 * k := by omega
    rw [h1, Nat.add_mul_div_right _ _ hk1]
  rw [hq]
  simp only [chunkGo]
  rw [List.take_left' hc, List.drop_left' hc]

theorem chunkList_flatten_of_uniform (k : Nat) (hk : k ≠ 0) :
    ∀ ls : List (List FP), (∀ c ∈ ls, c.length = k) → chunkList k (ls.flatten) = ls := by
  intro ls
  induction ls with
  | nil =>
    intro _
    have hk1 : 0 < k := Nat.pos_of_ne_zero hk
    show chunkGo ((([] : List (List FP)).flatten.length + k - 1) / k) k ([] : List (List FP)).flatten = []
    have h0 : (([] : List (List FP)).flatten.length + k - 1) / k = 0 := by
      apply Nat.div_eq_of_lt
      simp only [List.flatten_nil, List.length_nil]
      omega
    rw [h0]
    rfl
  | cons c rest ih =>
    intro h
    rw [List.flatten_cons, chunkList_cons_chunk k c rest.flatten (h c (by simp)) hk,
      ih (fun c2 hc2 => h c2 (by simp [hc2]))]

theorem swapBlocks_three (x y z : FP) : swapBlocks 1 [x, y, z] = [z, y, x] := rfl

theorem flatten_perm_forall₂ {ls ls2 : List (List FP)}
    (h : List.Forall₂ (fun u v => u.Perm v) ls ls2) : ls.flatten.Perm ls2.flatten := by
  induction h with
  | nil => simp
  | cons h1 _ ih =>
    simp only [List.flatten_cons]
    exact h1.append ih

theorem pixel_process_shape (amLut vLut : NDArray → Dataset → NDArray)
    (ds : Dataset) (a : NDArray)
    (ham : ∀ b d, (amLut b d).shape = b.shape)
    (hv : ∀ b d, (vLut b d).shape = b.shape) :
    (pixel_process amLut vLut ds a).shape = a.shape := by
  have h1 : ∀ b : NDArray, (modality_step amLut ds b).shape = b.shape := by
    intro b
    unfold modality_step
    cases ds.RescaleSlope with
    | none => exact ham b ds
    | some s =>
      cases ds.RescaleIntercept with
      | none => exact ham b ds
      | some i => rfl
  have h2 : ∀ b : NDArray, (voi_step vLut ds b).shape = b.shape := by
    intro b
    unfold voi_step
    split
    · exact hv b ds
    · split
      · rfl
      · exact hv b ds
  have h4 : ∀ b : NDArray, (mono1_step ds b).shape = b.shape := by
    intro b
    unfold mono1_step
    split
    · rfl
    · rfl
  calc (pixel_process amLut vLut ds a).shape
      = (mono1_step ds (norm_step (voi_step vLut ds (modality_step amLut ds a)))).shape := rfl
    _ = a.shape := by rw [h4]; show (norm_step _).shape = _; rw [show ∀ b : NDArray, (norm_step b).shape = b.shape from fun _ => rfl, h2, h1]

theorem collect_origin_ok_iff (fs : FS) (o : FsPath) :
    (∃ v, collect_origin fs o = .ok v) ↔
      ((fsFind fs o).isSome ∧
        (fsIsFile fs o = true → strToLower (pySuffix (o.getLastD "")) = ".dcm")) := by
  unfold collect_origin fsIsFile
  cases hf : fsFind fs o with
  | none => simp
  | some t =>
    cases t with
    | file =>
      by_cases hs : strToLower (pySuffix ((o.getLast?).getD "")) = ".dcm"
      · simp [List.getLastD_eq_getLast?, hs]
      · simp [List.getLastD_eq_getLast?, hs]
    | dir es => simp

theorem collect_origin_ok_val (fs : FS) (o : FsPath) (v : List FsPath)
    (h : collect_origin fs o = .ok v) : v = collectMatches fs o := by
  unfold collect_origin at h
  unfold collectMatches
  cases hf : fsFind fs o with
  | none => rw [hf] at h; cases h
  | some t =>
    cases t with
    | file =>
      rw [hf] at h
      by_cases hs : strToLower (pySuffix (o.getLastD "")) = ".dcm"
      · rw [if_pos hs] at h
        cases h
        rfl
      · rw [if_neg hs] at h
        cases h
    | dir es =>
      rw [hf] at h
      cases h
      rfl

/-! ## Claim theorems -/

/-- C2: on an input array whose values are all equal (min == max), the
presentation-normalization step of _pixel_process computes (x - min)/(max - min)
= 0/0 = NaN for every sample, and the NaN reaches the uint8 quantization
(whose result for NaN is undefined), rather than producing the defined
all-zeros output the specification requires.  This evaluates the code at the
failing input: the constant array [5.0, 5.0]. -/
theorem C2_flat_normalization_nan :
    norm_step arrFlat = { shape := [2], data := [FP.nan, FP.nan] }
    ∧ pixel_process idLut idLut dsFlat arrFlat = { shape := [2], data := [FP.nan, FP.nan] }
    ∧ FP.nan ≠ FP.num 0 := by
  refine ⟨?_, ?_, by simp⟩
  · simp [arrFlat, norm_step, arrMin, arrMax, NDArray.map, FP.fmin_num, FP.fmax_num,
      FP.sub_num, FP.div_num, FP.mul_nan_left]
  · simp [dsFlat, dsWindowed, arrFlat, pixel_process, modality_step, voi_step,
      get_LUT_value_LINEAR_EXACT, norm_step, mono1_step, NDArray.map, arrMin, arrMax,
      TagValue.resolve, FP.fmin_num, FP.fmax_num, FP.add_num, FP.sub_num, FP.mul_num,
      FP.div_num, FP.ltb_num, FP.leb_num, FP.mul_nan_left, astype_uint8_nan]

/-- C8: in non-anonymous mode the resolved export path is exactly
target_root / "{SeriesNumber}_{InstanceNumber}.{filetype}", one single path
component directly under the target root (flat, no subfolders), with
SeriesNumber and InstanceNumber defaulting to the literal placeholders
"Ser" and "Ins" when the tags are absent, so path resolution never fails. -/
theorem C8_export_path_flat (ds : Dataset) (fp root : FsPath) (ft : String)
    (pd : Option (List (FsPath × FsPath))) :
    get_export_file_path ds fp root ft false pd =
      .ok (root ++ [(ds.SeriesNumber.getD "Ser") ++ "_" ++ (ds.InstanceNumber.getD "Ins") ++ "." ++ ft])
    ∧ (root ++ [(ds.SeriesNumber.getD "Ser") ++ "_" ++ (ds.InstanceNumber.getD "Ins") ++ "." ++ ft]).length
        = root.length + 1 := by
  constructor
  · rfl
  · simp

/-- C4 counterexample: the token "JPG" is none of the six recognized tokens,
yet the validation accepts it (no fatal error), because the code lowercases
the token before the membership test.  So the batch does not accept exactly
the listed tokens. -/
theorem C4_counterexample :
    resolve_filetype (some "JPG") = .ok "JPG"
    ∧ "JPG" ∉ ["jpg", "jpeg", "png", "bmp", "tiff", "img"] := by
  refine ⟨by decide, by decide⟩

/-- C4 amended: the batch operation accepts exactly the tokens whose
lowercased form is in {jpg, png, jpeg, bmp, img, tiff} (img is the raw-array
pass-through), and for any other token _dicom_convertor raises the fatal
validation error before file discovery and before any task dispatch: the
error is produced for every filesystem and origin list, even nonexistent
ones. -/
theorem C4_amended :
    (∀ ft : String, strToLower ft ∈ valid_filetypes → resolve_filetype (some ft) = .ok ft)
    ∧ (∀ ft : String, strToLower ft ∉ valid_filetypes →
        resolve_filetype (some ft) = .error "Target file type should be jpg, png, or bmp")
    ∧ (∀ (fs : FS) (dcmread : FsPath → Res Dataset)
        (amLut vLut : NDArray → Dataset → NDArray)
        (origin : List FsPath) (tr : Option FsPath) (anon mp : Bool) (ft : String),
        strToLower ft ∉ valid_filetypes →
        dicom_convertor fs dcmread amLut vLut origin tr (some ft) anon mp =
          .error "Target file type should be jpg, png, or bmp") := by
  refine ⟨?_, ?_, ?_⟩
  · intro ft h
    simp [resolve_filetype, h]
  · intro ft h
    simp [resolve_filetype, h]
  · intro fs dcmread amLut vLut origin tr anon mp ft h
    simp [dicom_convertor, resolve_filetype, h]

theorem C4_witness :
    resolve_filetype (some "tiff") = .ok "tiff"
    ∧ dicom_convertor fsDot decodePdf idLut idLut [[".dcm"]] none (some "exe") false true =
        .error "Target file type should be jpg, png, or bmp" :=
  ⟨C4_amended.1 "tiff" (by decide),
   C4_amended.2.2 fsDot decodePdf idLut idLut [[".dcm"]] none false true "exe" (by decide)⟩

/-- C3 counterexample: with window width -2 and center 0 on the array [0, 5]
(dmin = 0, dmax = 5), the sample x = 0 satisfies the claim's first clause
x <= c - w/2 (0 <= 1), so the claim maps it to dmin = 0; but np.piecewise
assigns the data_max piece after the data_min piece, so the code's windowing
step outputs dmax = 5 for that sample. -/
theorem C3_counterexample :
    voi_step idLut dsNegWidth arr05 = { shape := [2], data := [FP.num 5, FP.num 5] }
    ∧ dsNegWidth.WindowWidth = some (.scalar (-2))
    ∧ dsNegWidth.WindowCenter = some (.scalar 0)
    ∧ dsNegWidth.VOILUTFunction = none
    ∧ arrMin arr05 = FP.num 0 ∧ arrMax arr05 = FP.num 5
    ∧ linear_exact_claim_value (-2) 0 0 5 0 = 0
    ∧ (FP.num 5 ≠ FP.num 0) := by
  refine ⟨?_, rfl, rfl, rfl, ?_, ?_, ?_, by simp⟩
  · norm_num [dsNegWidth, dsWindowed, arr05, voi_step, get_LUT_value_LINEAR_EXACT,
      NDArray.map, arrMin, arrMax, TagValue.resolve, FP.fmin_num, FP.fmax_num,
      FP.add_num, FP.sub_num, FP.mul_num, FP.div_num, FP.ltb_num, FP.leb_num]
    intro h
    exact Option.noConfusion h
  · norm_num [arr05, arrMin, FP.fmin_num]
  · norm_num [arr05, arrMax, FP.fmax_num]
  · norm_num [linear_exact_claim_value]

/-- C3 amended: whenever the VOI LUT function tag is not SIGMOID and both
window center and window width are present, the windowing step resolves each
to a single float (first element of a MultiValue, else the scalar itself) and
maps each sample x, with w, c, dmin, dmax as in the claim, by the same three
clauses but with the dmax clause taking precedence: dmax if x > c + w/2;
else dmin if x <= c - w/2; else ((x - c + w/2) / w) * (dmax - dmin) + dmin.
(The two threshold clauses can only overlap when w < 0.) -/
theorem C3_amended (vLut : NDArray → Dataset → NDArray) (ds : Dataset)
    (s : List Nat) (q0 : ℚ) (qs : List ℚ) (wc ww : TagValue)
    (hsig : ds.VOILUTFunction ≠ some "SIGMOID")
    (hwc : ds.WindowCenter = some wc) (hww : ds.WindowWidth = some ww) :
    voi_step vLut ds { shape := s, data := (q0 :: qs).map FP.num } =
      { shape := s,
        data := (q0 :: qs).map (fun x =>
          FP.num (linear_exact_value ww.resolve wc.resolve (qListMin q0 qs) (qListMax q0 qs) x)) }
    ∧ (∀ q : ℚ, TagValue.resolve (.scalar q) = q)
    ∧ (∀ (q : ℚ) (rest : List ℚ), TagValue.resolve (.multi q rest) = q) :=
  ⟨voi_step_values vLut ds s q0 qs wc ww hsig hwc hww, fun _ => rfl, fun _ _ => rfl⟩

theorem C3_witness :
    voi_step idLut dsMulti { shape := [3], data := ([0, 1, 2] : List ℚ).map FP.num } =
      { shape := [3],
        data := ([0, 1, 2] : List ℚ).map (fun x =>
          FP.num (linear_exact_value (TagValue.multi 4 [80]).resolve (TagValue.multi 1 [9]).resolve
            (qListMin 0 [1, 2]) (qListMax 0 [1, 2]) x)) }
    ∧ (∀ q : ℚ, TagValue.resolve (.scalar q) = q)
    ∧ (∀ (q : ℚ) (rest : List ℚ), TagValue.resolve (.multi q rest) = q) :=
  C3_amended idLut dsMulti [3] 0 [1, 2] (.multi 1 [9]) (.multi 4 [80]) (by decide) rfl rfl

/-- C5: given a successfully decoded dataset, a conversion task returns a
skip message and writes nothing exactly when the SOP class UID matches the
fixed rejection table (reported with the matched human-readable name), or the
raw sample array has 3 axes whose last axis is not exactly 3; and the
rejection table is exactly Encapsulated PDF Storage and Key Object Selection
Document. -/
theorem C5_skip_iff (dcmread : FsPath → Res Dataset)
    (amLut vLut : NDArray → Dataset → NDArray)
    (fp root : FsPath) (ft : String) (anon : Bool)
    (pd : Option (List (FsPath × FsPath))) (ds : Dataset)
    (hdec : dcmread fp = .ok ds) :
    (∀ name, is_unsupported ds = some name →
      ds_to_file dcmread amLut vLut fp root ft anon pd =
        .ok { ret := .retMsg (sop_skip_msg fp name), writes := [] })
    ∧ (∀ arr, is_unsupported ds = none → ds.pixelData = .ok arr →
        arr.shape.length = 3 → arr.shape.getD 2 0 ≠ 3 →
        ds_to_file dcmread amLut vLut fp root ft anon pd =
          .ok { ret := .retMsg (multiframe_skip_msg fp), writes := [] })
    ∧ (∀ s w, ds_to_file dcmread amLut vLut fp root ft anon pd =
          .ok { ret := .retMsg s, writes := w } →
        w = [] ∧ ((∃ n, is_unsupported ds = some n) ∨
          ∃ arr, ds.pixelData = .ok arr ∧ arr.shape.length = 3 ∧ arr.shape.getD 2 0 ≠ 3))
    ∧ (∀ n, is_unsupported ds = some n ↔
        ((ds.SOPClassUID = "1.2.840.10008.5.1.4.1.1.104.1" ∧ n = "Encapsulated PDF Storage")
          ∨ (ds.SOPClassUID = "1.2.840.10008.5.1.4.1.1.88.59" ∧ n = "Key Object Selection Document"))) := by
  refine ⟨?_, ?_, ?_, ?_⟩
  · intro name hn
    simp [ds_to_file, hdec, hn]
  · intro arr hn harr h3 hne
    simp only [ds_to_file, hdec, hn, harr]
    rw [if_pos (⟨h3, hne⟩ : arr.shape.length = 3 ∧ arr.shape.getD 2 0 ≠ 3)]
  · intro s w h
    cases hn : is_unsupported ds with
    | some name =>
      simp only [ds_to_file, hdec, hn] at h
      simp only [Res.ok.injEq, TaskOutcome.mk.injEq, TaskReturn.retMsg.injEq] at h
      exact ⟨h.2.symm, Or.inl ⟨name, rfl⟩⟩
    | none =>
      cases harr : ds.pixelData with
      | error e =>
        simp only [ds_to_file, hdec, hn, harr] at h
        cases h
      | ok arr =>
        by_cases hcond : arr.shape.length = 3 ∧ arr.shape.getD 2 0 ≠ 3
        · simp only [ds_to_file, hdec, hn, harr, if_pos hcond] at h
          simp only [Res.ok.injEq, TaskOutcome.mk.injEq, TaskReturn.retMsg.injEq] at h
          exact ⟨h.2.symm, Or.inr ⟨arr, rfl, hcond.1, hcond.2⟩⟩
        · simp only [ds_to_file, hdec, hn, harr, if_neg hcond] at h
          cases hcf : color_fix ds (pixel_process amLut vLut ds arr) with
          | error e => rw [hcf] at h; simp at h
          | ok arr2 =>
            rw [hcf] at h
            cases hexp : get_export_file_path ds fp root ft anon pd with
            | error e => rw [hexp] at h; simp at h
            | ok fpath =>
              rw [hexp] at h
              simp at h
  · intro n
    constructor
    · intro h
      unfold is_unsupported at h
      by_cases h1 : ds.SOPClassUID = "1.2.840.10008.5.1.4.1.1.104.1"
      · rw [if_pos h1] at h
        cases h
        exact Or.inl ⟨h1, rfl⟩
      · rw [if_neg h1] at h
        by_cases h2 : ds.SOPClassUID = "1.2.840.10008.5.1.4.1.1.88.59"
        · rw [if_pos h2] at h
          cases h
          exact Or.inr ⟨h2, rfl⟩
        · rw [if_neg h2] at h
          cases h
    · intro h
      unfold is_unsupported
      rcases h with ⟨h1, rfl⟩ | ⟨h2, rfl⟩
      · rw [if_pos h1]
      · have h1 : ds.SOPClassUID ≠ "1.2.840.10008.5.1.4.1.1.104.1" := by
          rw [h2]
          decide
        rw [if_neg h1, if_pos h2]

theorem C5_witness :
    ds_to_file decodePdf idLut idLut ["d", "x.dcm"] [] "bmp" false none =
      .ok { ret := .retMsg (sop_skip_msg ["d", "x.dcm"] "Encapsulated PDF Storage"),
            writes := [] } :=
  (C5_skip_iff decodePdf idLut idLut ["d", "x.dcm"] [] "bmp" false none dsPdf rfl).1
    "Encapsulated PDF Storage" rfl

/-- C10: _dicom_convertor never populates the source-to-output path mapping
(full_path_dict is always None), so in anonymous mode the lookup
patient_dict[file_path] raises for every file that reaches export-path
resolution; consequently a task run with the anonymize flag never returns
True (a Written result) and never records a written file: every collected
outcome is a skip message with no writes, and every converting file aborts
the task with an error instead. -/
theorem C10_anonymous_never_writes (dcmread : FsPath → Res Dataset)
    (amLut vLut : NDArray → Dataset → NDArray) :
    (∀ (ds : Dataset) (fp root : FsPath) (ft : String),
      get_export_file_path ds fp root ft true none =
        .error "TypeError: NoneType object is not subscriptable")
    ∧ (∀ (fp root : FsPath) (ft : String) (out : TaskOutcome),
        ds_to_file dcmread amLut vLut fp root ft true none = .ok out →
        (∃ s, out.ret = .retMsg s) ∧ out.writes = [])
    ∧ (∀ (fs : FS) (origin : List FsPath) (tr : Option FsPath) (ft : Option String)
        (mp b : Bool) (outs : List TaskOutcome),
        dicom_convertor fs dcmread amLut vLut origin tr ft true mp = .ok (b, outs) →
        ∀ out ∈ outs, (∃ s, out.ret = .retMsg s) ∧ out.writes = []) := by
  have h2 : ∀ (fp root : FsPath) (ft : String) (out : TaskOutcome),
      ds_to_file dcmread amLut vLut fp root ft true none = .ok out →
      (∃ s, out.ret = .retMsg s) ∧ out.writes = [] := by
    intro fp root ft out h
    cases hdec : dcmread fp with
    | error e =>
      simp only [ds_to_file, hdec] at h
      cases h
    | ok ds =>
      cases hn : is_unsupported ds with
      | some name =>
        simp only [ds_to_file, hdec, hn] at h
        cases h
        exact ⟨⟨_, rfl⟩, rfl⟩
      | none =>
        cases hpx : ds.pixelData with
        | error e =>
          simp only [ds_to_file, hdec, hn, hpx] at h
          cases h
        | ok arr =>
          by_cases hcond : arr.shape.length = 3 ∧ arr.shape.getD 2 0 ≠ 3
          · simp only [ds_to_file, hdec, hn, hpx] at h
            rw [if_pos hcond] at h
            cases h
            exact ⟨⟨_, rfl⟩, rfl⟩
          · simp only [ds_to_file, hdec, hn, hpx] at h
            rw [if_neg hcond] at h
            cases hcf : color_fix ds (pixel_process amLut vLut ds arr) with
            | error e =>
              rw [hcf] at h
              cases h
            | ok arr2 =>
              rw [hcf] at h
              have hexp : get_export_file_path ds fp root ft true none =
                  .error "TypeError: NoneType object is not subscriptable" := rfl
              rw [hexp] at h
              cases h
  refine ⟨fun ds fp root ft => rfl, h2, ?_⟩
  intro fs origin tr ft mp b outs h out hout
  cases hft : resolve_filetype ft with
  | error e =>
    simp only [dicom_convertor, hft] at h
    cases h
  | ok ftv =>
    cases hdisc : get_root_get_dicom_file_list fs origin tr with
    | error e =>
      simp only [dicom_convertor, hft, hdisc] at h
      cases h
    | ok rootfiles =>
      rcases rootfiles with ⟨root, files⟩
      simp only [dicom_convertor, hft, hdisc] at h
      cases hmap : resMapM
          (fun fp => ds_to_file dcmread amLut vLut fp root ftv true none) files with
      | error e =>
        rw [hmap] at h
        cases h
      | ok outs2 =>
        rw [hmap] at h
        cases h
        rcases resMapM_ok_mem _ files _ hmap out hout with ⟨fp, _, hok⟩
        exact h2 fp root ftv out hok

theorem C10_witness :
    get_export_file_path dsPdf ["a.dcm"] [] "bmp" true none =
      .error "TypeError: NoneType object is not subscriptable"
    ∧ (∃ s, (pdfSkipOutcome ["p.dcm"]).ret = .retMsg s)
    ∧ (pdfSkipOutcome ["p.dcm"]).writes = [] := by
  have h := (C10_anonymous_never_writes decodePdf idLut idLut).2.1 ["p.dcm"] [] "bmp"
    (pdfSkipOutcome ["p.dcm"]) rfl
  exact ⟨(C10_anonymous_never_writes decodePdf idLut idLut).1 dsPdf ["a.dcm"] [] "bmp",
    h.1, h.2⟩

/-- C1 counterexample: a batch over directory d containing a.dcm (whose
decode raises) and b.dcm (which decodes and is skipped): the decode error is
not caught at the task boundary; it propagates out of _dicom_convertor, so
the batch raises instead of returning True, and b.dcm's result is never
collected.  This refutes both the per-file Failed isolation and the
unconditional overall-success parts of the claim. -/
theorem C1_counterexample :
    dicom_convertor fsAB decodeFailA idLut idLut [["d"]] none (some "bmp") false true =
      .error "InvalidDicomError: file is missing DICOM header"
    ∧ ∀ r, dicom_convertor fsAB decodeFailA idLut idLut [["d"]] none (some "bmp") false true ≠
        .ok r := by
  have h1 : dicom_convertor fsAB decodeFailA idLut idLut [["d"]] none (some "bmp") false true =
      .error "InvalidDicomError: file is missing DICOM header" := by decide
  refine ⟨h1, ?_⟩
  intro r hr
  rw [h1] at hr
  cases hr

/-- C1 amended: per-file Skipped outcomes are surfaced without affecting the
other files, and a batch in which every task returns (rather than raises)
returns True together with one collected outcome per file, regardless of how
many files were skipped; but a task exception is not caught at the task
boundary: it propagates out of the batch call (see the counterexample), so
the batch reports success only when no task raised. -/
theorem C1_amended (fs : FS) (dcmread : FsPath → Res Dataset)
    (amLut vLut : NDArray → Dataset → NDArray)
    (origin : List FsPath) (tr : Option FsPath) (ft : Option String)
    (anon mp : Bool) (root : FsPath) (files : List FsPath) (ftv : String)
    (hft : resolve_filetype ft = .ok ftv)
    (hdisc : get_root_get_dicom_file_list fs origin tr = .ok (root, files))
    (g : FsPath → TaskOutcome)
    (hall : ∀ fp ∈ files, ds_to_file dcmread amLut vLut fp root ftv anon none = .ok (g fp)) :
    dicom_convertor fs dcmread amLut vLut origin tr ft anon mp = .ok (true, files.map g) := by
  simp only [dicom_convertor, hft, hdisc]
  rw [resMapM_ok_map (fun fp => ds_to_file dcmread amLut vLut fp root ftv anon none) g files hall]

theorem C1_witness :
    dicom_convertor fsAB decodePdf idLut idLut [["d"]] none (some "bmp") false true =
      .ok (true, [["d", "a.dcm"], ["d", "b.dcm"]].map pdfSkipOutcome) := by
  apply C1_amended fsAB decodePdf idLut idLut [["d"]] none (some "bmp") false true
    [] [["d", "a.dcm"], ["d", "b.dcm"]] "bmp" (by decide) (by decide) pdfSkipOutcome
  intro fp hfp
  rcases List.mem_cons.mp hfp with rfl | hfp2
  · rfl
  · rcases List.mem_cons.mp hfp2 with rfl | hfp3
    · rfl
    · cases hfp3

/-- C6 counterexample: a file literally named ".dcm" exists and its name ends
with the recognized suffix case-insensitively, yet passing it explicitly
fails fatally, because the explicit-file check uses the pathlib suffix (empty
for a dot-initial name with no further dot) while directory traversal
matches by name ending.  No single uniform suffix criterion satisfies the
claim. -/
theorem C6_counterexample :
    get_root_get_dicom_file_list fsDot [[".dcm"]] none =
      .error "Input file type should be a DICOM file"
    ∧ hasDcmSuffix ".dcm" = true
    ∧ fsIsFile fsDot [".dcm"] = true := by
  refine ⟨by decide, by decide, by decide⟩

/-- C6 amended: discovery succeeds exactly when every origin path exists and
every explicitly given file has pathlib suffix ".dcm" after lowercasing (a
dot-initial name like ".dcm" counts as having no suffix and is rejected);
on success it returns the (name-ending-matched) files collected under all
origins, sorted by path string. -/
theorem C6_amended (fs : FS) (origins : List FsPath) (tr : Option FsPath) :
    ((∃ v, get_root_get_dicom_file_list fs origins tr = .ok v) ↔
      ∀ o ∈ origins, (fsFind fs o).isSome ∧
        (fsIsFile fs o = true → strToLower (pySuffix (o.getLastD "")) = ".dcm"))
    ∧ (∀ root files, get_root_get_dicom_file_list fs origins tr = .ok (root, files) →
        files.Perm ((origins.map (collectMatches fs)).flatten)
        ∧ List.Sorted pathLe files) := by
  constructor
  · constructor
    · rintro ⟨v, hv⟩ o ho
      have hex : ∃ ls, resMapM (collect_origin fs) origins = .ok ls := by
        cases hmap : resMapM (collect_origin fs) origins with
        | error e =>
          simp only [get_root_get_dicom_file_list, hmap] at hv
          cases hv
        | ok ls => exact ⟨ls, rfl⟩
      have hone := (resMapM_ok_iff (collect_origin fs) origins).mp hex o ho
      exact (collect_origin_ok_iff fs o).mp hone
    · intro h
      have hall : ∀ o ∈ origins, ∃ b, collect_origin fs o = .ok b :=
        fun o ho => (collect_origin_ok_iff fs o).mpr (h o ho)
      rcases (resMapM_ok_iff (collect_origin fs) origins).mpr hall with ⟨ls, hls⟩
      refine ⟨((match tr with
        | none => (origins.headD []).dropLast
        | some r => r), sortPaths ls.flatten), ?_⟩
      simp only [get_root_get_dicom_file_list, hls]
  · intro root files hok
    cases hmap : resMapM (collect_origin fs) origins with
    | error e =>
      simp only [get_root_get_dicom_file_list, hmap] at hok
      cases hok
    | ok ls =>
      simp only [get_root_get_dicom_file_list, hmap] at hok
      cases hok
      have hls : ls = origins.map (collectMatches fs) :=
        resMapM_ok_eq_map (collect_origin fs) (collectMatches fs)
          (fun a b hb => collect_origin_ok_val fs a b hb) origins ls hmap
      constructor
      · rw [hls]
        exact List.perm_insertionSort pathLe _
      · exact List.sorted_insertionSort pathLe _

theorem C6_witness :
    (∃ v, get_root_get_dicom_file_list fsABC [["d"]] none = .ok v)
    ∧ [["d", "a.dcm"], ["d", "b.dcm"], ["d", "c.dcm"]].Perm
        (([["d"]].map (collectMatches fsABC)).flatten)
    ∧ List.Sorted pathLe [["d", "a.dcm"], ["d", "b.dcm"], ["d", "c.dcm"]] := by
  have h2 := (C6_amended fsABC [["d"]] none).2 []
    [["d", "a.dcm"], ["d", "b.dcm"], ["d", "c.dcm"]] (by decide)
  exact ⟨(C6_amended fsABC [["d"]] none).1.mpr (by decide), h2.1, h2.2⟩

/-- C9: the pixel pipeline's output has the shape of its input (every step
being elementwise; the external LUT capabilities are assumed shape
preserving, as the spec's invariant states for those black boxes), and the
channel reordering of _ds_to_file happens exactly under the photometric
interpretations of the fixed color list: for a non-color dataset the array
passes through unchanged; for a color dataset a 3-axis [rows, cols, 3] array
has channel index 0 and channel index 2 swapped within every pixel triple,
permuting but never resizing the data (and a color dataset without a channel
axis makes numpy raise IndexError, so no reordering and no output at all). -/
theorem C9_shape_and_channel_swap :
    (∀ (amLut vLut : NDArray → Dataset → NDArray) (ds : Dataset) (a : NDArray),
      (∀ b d, (amLut b d).shape = b.shape) → (∀ b d, (vLut b d).shape = b.shape) →
      (pixel_process amLut vLut ds a).shape = a.shape)
    ∧ (∀ ds : Dataset, piColor ds = true ↔
        ∃ pi, ds.PhotometricInterpretation = some pi ∧ pi ∈ color_pi_list)
    ∧ (∀ (ds : Dataset) (a : NDArray), piColor ds = false → color_fix ds a = .ok a)
    ∧ (∀ (ds : Dataset) (a : NDArray), piColor ds = true → a.shape.length < 3 →
        ∃ e, color_fix ds a = .error e)
    ∧ (∀ (ds : Dataset) (a : NDArray) (r c : Nat), piColor ds = true →
        a.shape = [r, c, 3] → a.data.length = r * c * 3 →
        ∃ b, color_fix ds a = .ok b ∧ b.shape = a.shape ∧ b.data.Perm a.data ∧
          List.Forall₂ (fun cIn cOut => ∀ x y z : FP, cIn = [x, y, z] → cOut = [z, y, x])
            (chunkList 3 a.data) (chunkList 3 b.data)) := by
  refine ⟨?_, ?_, ?_, ?_, ?_⟩
  · intro amLut vLut ds a ham hv
    exact pixel_process_shape amLut vLut ds a ham hv
  · intro ds
    unfold piColor
    cases hpi : ds.PhotometricInterpretation with
    | none => simp
    | some pi => simp
  · intro ds a h
    simp [color_fix, h]
  · intro ds a h hlen
    refine ⟨"IndexError: too many indices for array", ?_⟩
    simp [color_fix, h, axis2Swap, hlen]
  · intro ds a r c hpi hshape hlen
    have hk : (3 : Nat) ≠ 0 := by decide
    have hdvd : (3 : Nat) ∣ a.data.length := ⟨r * c, by rw [hlen]; ring⟩
    have huni : ∀ ch ∈ chunkList 3 a.data, ch.length = 3 :=
      chunkList_uniform 3 a.data hk hdvd
    have hthree : ∀ ch ∈ chunkList 3 a.data, ∃ x y z : FP, ch = [x, y, z] := by
      intro ch hch
      exact List.length_eq_three.mp (huni ch hch)
    have hswap : color_fix ds a =
        .ok { shape := a.shape, data := ((chunkList 3 a.data).map (swapBlocks 1)).flatten } := by
      simp [color_fix, hpi, axis2Swap, hshape]
    refine ⟨_, hswap, rfl, ?_, ?_⟩
    · have hperm : List.Forall₂ (fun u v => u.Perm v)
          ((chunkList 3 a.data).map (swapBlocks 1)) (chunkList 3 a.data) := by
        rw [List.forall₂_map_left_iff, List.forall₂_same]
        intro ch hch
        rcases hthree ch hch with ⟨x, y, z, rfl⟩
        rw [swapBlocks_three]
        exact List.reverse_perm [x, y, z]
      have h1 := flatten_perm_forall₂ hperm
      rwa [chunkList_flatten 3 a.data hk] at h1
    · have hchunks : chunkList 3 (((chunkList 3 a.data).map (swapBlocks 1)).flatten)
          = (chunkList 3 a.data).map (swapBlocks 1) := by
        apply chunkList_flatten_of_uniform 3 hk
        intro ch hch
        rcases List.mem_map.mp hch with ⟨ch0, hch0, rfl⟩
        rcases hthree ch0 hch0 with ⟨x, y, z, rfl⟩
        rw [swapBlocks_three]
        rfl
      rw [hchunks, List.forall₂_map_right_iff, List.forall₂_same]
      intro ch hch
      rcases hthree ch hch with ⟨x0, y0, z0, rfl⟩
      intro x y z hxyz
      cases hxyz
      rw [swapBlocks_three]

theorem C9_witness :
    ∃ b, color_fix dsRGB arr113 = .ok b ∧ b.shape = arr113.shape
      ∧ b.data.Perm arr113.data
      ∧ List.Forall₂ (fun cIn cOut => ∀ x y z : FP, cIn = [x, y, z] → cOut = [z, y, x])
          (chunkList 3 arr113.data) (chunkList 3 b.data) :=
  C9_shape_and_channel_swap.2.2.2.2 dsRGB arr113 1 1 (by decide) rfl rfl

theorem invert_quant_bounds (s : List Nat) (b0 : ℚ) (bs : List ℚ) (m M : ℚ)
    (hm : qListMin b0 bs = m) (hM : qListMax b0 bs = M) (hlt : m < M)
    (ds1 ds2 : Dataset)
    (h1 : ds1.PhotometricInterpretation = some "MONOCHROME1")
    (h2 : ds2.PhotometricInterpretation ≠ some "MONOCHROME1") :
    List.Forall₂ (fun x y => ∃ u v : ℤ, x = FP.num u ∧ y = FP.num v ∧
        0 ≤ u ∧ 0 ≤ v ∧ 254 ≤ u + v ∧ u + v ≤ 255)
      ((mono1_step ds1 (norm_step { shape := s, data := (b0 :: bs).map FP.num })).map
        astype_uint8).data
      ((mono1_step ds2 (norm_step { shape := s, data := (b0 :: bs).map FP.num })).map
        astype_uint8).data := by
  have hMm : (0 : ℚ) < M - m := by linarith
  have hnorm := norm_step_values s b0 bs m M hm hM hlt
  have hbound : ∀ x ∈ b0 :: bs, m ≤ x ∧ x ≤ M := by
    intro x hx
    constructor
    · rw [← hm]
      exact qListMin_le b0 bs x hx
    · rw [← hM]
      exact qListMax_ge b0 bs x hx
  have hG : ∀ x ∈ b0 :: bs,
      0 ≤ (x - m) / (M - m) * 255 ∧ (x - m) / (M - m) * 255 ≤ 255 := by
    intro x hx
    rcases hbound x hx with ⟨hxm, hxM⟩
    constructor
    · have hd : 0 ≤ (x - m) / (M - m) := div_nonneg (by linarith) (le_of_lt hMm)
      exact mul_nonneg hd (by norm_num)
    · have hle1 : (x - m) / (M - m) ≤ 1 := by
        rw [div_le_one hMm]
        linarith
      calc (x - m) / (M - m) * 255 ≤ 1 * 255 := by
            exact mul_le_mul_of_nonneg_right hle1 (by norm_num)
        _ = 255 := by norm_num
  have hnorm3 : norm_step { shape := s, data := (b0 :: bs).map FP.num } =
      { shape := s,
        data := (((b0 - m) / (M - m) * 255) ::
          bs.map (fun x => (x - m) / (M - m) * 255)).map FP.num } := by
    rw [hnorm]
    congr 1
    simp only [List.map_cons, List.map_map]
    rfl
  have hmax255 : qListMax ((b0 - m) / (M - m) * 255)
      (bs.map (fun x => (x - m) / (M - m) * 255)) = 255 := by
    apply qListMax_eq_of
    · intro x hx
      rcases List.mem_map.mp
        (show x ∈ (b0 :: bs).map (fun x => (x - m) / (M - m) * 255) from hx) with ⟨y, hy, rfl⟩
      exact (hG y hy).2
    · have hMmem : M ∈ b0 :: bs := by
        rw [← hM]
        exact qListMax_mem b0 bs
      have hGM : (M - m) / (M - m) * 255 = 255 := by
        rw [div_self (ne_of_gt hMm)]
        norm_num
      show (255 : ℚ) ∈ (b0 :: bs).map (fun x => (x - m) / (M - m) * 255)
      exact List.mem_map.mpr ⟨M, hMmem, hGM⟩
  have e1 : (mono1_step ds1 (norm_step { shape := s, data := (b0 :: bs).map FP.num })).map
      astype_uint8 =
      { shape := s,
        data := (((b0 - m) / (M - m) * 255) :: bs.map (fun x => (x - m) / (M - m) * 255)).map
          (fun x => astype_uint8 (FP.num (255 - x))) } := by
    rw [hnorm3, mono1_step_values ds1 s _ _ h1 hmax255]
    simp only [NDArray.map, List.map_map]
    rfl
  have e2 : (mono1_step ds2 (norm_step { shape := s, data := (b0 :: bs).map FP.num })).map
      astype_uint8 =
      { shape := s,
        data := (((b0 - m) / (M - m) * 255) :: bs.map (fun x => (x - m) / (M - m) * 255)).map
          (fun x => astype_uint8 (FP.num x)) } := by
    rw [hnorm3, mono1_step_skip ds2 _ h2]
    simp only [NDArray.map, List.map_map]
    rfl
  rw [e1, e2]
  dsimp only
  apply forall₂_map_map
  intro x hx
  rcases List.mem_map.mp
    (show x ∈ (b0 :: bs).map (fun x => (x - m) / (M - m) * 255) from hx) with ⟨y, hy, rfl⟩
  rcases hG y hy with ⟨ht0, ht1⟩
  rw [astype_uint8_num ((y - m) / (M - m) * 255) ht0 ht1,
    astype_uint8_num (255 - (y - m) / (M - m) * 255) (by linarith) (by linarith)]
  obtain ⟨hA, hB, hC, hD⟩ := floor_pair_bounds ((y - m) / (M - m) * 255) ht0 ht1
  exact ⟨⌊255 - (y - m) / (M - m) * 255⌋, ⌊(y - m) / (M - m) * 255⌋, rfl, rfl, hA, hB, hC, hD⟩

theorem modality_voi_values (amLut vLut : NDArray → Dataset → NDArray) (d : Dataset)
    (s : List Nat) (q0 : ℚ) (qs : List ℚ) (slope intercept : ℚ) (wc ww : TagValue)
    (h1 : d.RescaleSlope = some slope) (h2 : d.RescaleIntercept = some intercept)
    (h3 : d.VOILUTFunction ≠ some "SIGMOID")
    (h4 : d.WindowCenter = some wc) (h5 : d.WindowWidth = some ww) :
    voi_step vLut d (modality_step amLut d { shape := s, data := (q0 :: qs).map FP.num }) =
      { shape := s,
        data := ((linear_exact_value ww.resolve wc.resolve
            (qListMin (q0 * slope + intercept) (qs.map (fun q => q * slope + intercept)))
            (qListMax (q0 * slope + intercept) (qs.map (fun q => q * slope + intercept)))
            (q0 * slope + intercept)) ::
          (qs.map (fun q => q * slope + intercept)).map
            (linear_exact_value ww.resolve wc.resolve
              (qListMin (q0 * slope + intercept) (qs.map (fun q => q * slope + intercept)))
              (qListMax (q0 * slope + intercept) (qs.map (fun q => q * slope + intercept))))).map
          FP.num } := by
  rw [modality_step_values amLut d s (q0 :: qs) slope intercept h1 h2]
  have h6 := voi_step_values vLut d s (q0 * slope + intercept)
    (qs.map (fun q => q * slope + intercept)) wc ww h3 h4 h5
  refine Eq.trans h6 ?_
  congr 1
  simp only [List.map_cons, List.map_map]
  rfl

/-- C7 counterexample: on raw samples [0, 1, 2] (slope 1, intercept 0,
window center 1, width 4) the normalized values are [0, 127.5, 255]; the
MONOCHROME2 run truncates 127.5 to 127, while the MONOCHROME1 run truncates
255 - 127.5 = 127.5 to 127 as well, so at the middle sample
out_MONO1 = 127 but 255 - out_MONO2 = 128: the claimed exact elementwise
identity fails under uint8 truncation. -/
theorem C7_counterexample :
    pixel_process idLut idLut
        { dsWindowed with PhotometricInterpretation := some "MONOCHROME1" } arr012 =
      { shape := [3], data := [FP.num 255, FP.num 127, FP.num 0] }
    ∧ pixel_process idLut idLut dsWindowed arr012 =
      { shape := [3], data := [FP.num 0, FP.num 127, FP.num 255] }
    ∧ (127 : ℚ) ≠ 255 - 127 := by
  refine ⟨?_, ?_, by norm_num⟩
  · simp [arr012, dsWindowed, pixel_process, modality_step, voi_step,
      get_LUT_value_LINEAR_EXACT, norm_step, mono1_step, NDArray.map, arrMin, arrMax,
      TagValue.resolve, FP.fmin_num, FP.fmax_num, FP.add_num, FP.sub_num, FP.mul_num,
      FP.div_num, FP.ltb_num, FP.leb_num, astype_uint8_num_def, astype_uint8_nan]
    norm_num [FP.fmin_num, FP.fmax_num, FP.add_num, FP.sub_num, FP.mul_num, FP.div_num,
      FP.ltb_num, FP.leb_num, astype_uint8_num_def, astype_uint8_nan]
  · simp [arr012, dsWindowed, pixel_process, modality_step, voi_step,
      get_LUT_value_LINEAR_EXACT, norm_step, mono1_step, NDArray.map, arrMin, arrMax,
      TagValue.resolve, FP.fmin_num, FP.fmax_num, FP.add_num, FP.sub_num, FP.mul_num,
      FP.div_num, FP.ltb_num, FP.leb_num, astype_uint8_num_def, astype_uint8_nan]
    norm_num [FP.fmin_num, FP.fmax_num, FP.add_num, FP.sub_num, FP.mul_num, FP.div_num,
      FP.ltb_num, FP.leb_num, astype_uint8_num_def, astype_uint8_nan]

/-- C7 amended: with explicit rescale and window tags (so the external LUT
black boxes are not invoked) and a non-degenerate pre-normalization range
(min < max), running the pipeline once with MONOCHROME1 and once with
MONOCHROME2 on the same samples gives 8-bit outputs with
out_MONO1 + out_MONO2 in {254, 255} elementwise; equivalently out_MONO1
differs from 255 - out_MONO2 by at most one (the off-by-one coming from the
truncation of non-integer normalized values; exact equality is the special
case of an integral normalized sample). -/
theorem C7_amended (amLut vLut : NDArray → Dataset → NDArray) (ds : Dataset)
    (s : List Nat) (slope intercept : ℚ) (wc ww : TagValue)
    (q0 : ℚ) (qs : List ℚ) (m M : ℚ)
    (hs : ds.RescaleSlope = some slope) (hi : ds.RescaleIntercept = some intercept)
    (hsig : ds.VOILUTFunction ≠ some "SIGMOID")
    (hwc : ds.WindowCenter = some wc) (hww : ds.WindowWidth = some ww)
    (hm : arrMin (voi_step vLut ds (modality_step amLut ds
        { shape := s, data := (q0 :: qs).map FP.num })) = FP.num m)
    (hM : arrMax (voi_step vLut ds (modality_step amLut ds
        { shape := s, data := (q0 :: qs).map FP.num })) = FP.num M)
    (hlt : m < M) :
    List.Forall₂ (fun x y => ∃ u v : ℤ, x = FP.num u ∧ y = FP.num v ∧
        0 ≤ u ∧ 0 ≤ v ∧ 254 ≤ u + v ∧ u + v ≤ 255)
      (pixel_process amLut vLut { ds with PhotometricInterpretation := some "MONOCHROME1" }
        { shape := s, data := (q0 :: qs).map FP.num }).data
      (pixel_process amLut vLut { ds with PhotometricInterpretation := some "MONOCHROME2" }
        { shape := s, data := (q0 :: qs).map FP.num }).data := by
  rw [modality_voi_values amLut vLut ds s q0 qs slope intercept wc ww hs hi hsig hwc hww]
    at hm hM
  rw [arrMin_num] at hm
  rw [arrMax_num] at hM
  rw [FP.num.injEq] at hm hM
  have e1 : pixel_process amLut vLut { ds with PhotometricInterpretation := some "MONOCHROME1" }
      { shape := s, data := (q0 :: qs).map FP.num } =
      (mono1_step { ds with PhotometricInterpretation := some "MONOCHROME1" }
        (norm_step (voi_step vLut { ds with PhotometricInterpretation := some "MONOCHROME1" }
          (modality_step amLut { ds with PhotometricInterpretation := some "MONOCHROME1" }
            { shape := s, data := (q0 :: qs).map FP.num })))).map astype_uint8 := rfl
  have e2 : pixel_process amLut vLut { ds with PhotometricInterpretation := some "MONOCHROME2" }
      { shape := s, data := (q0 :: qs).map FP.num } =
      (mono1_step { ds with PhotometricInterpretation := some "MONOCHROME2" }
        (norm_step (voi_step vLut { ds with PhotometricInterpretation := some "MONOCHROME2" }
          (modality_step amLut { ds with PhotometricInterpretation := some "MONOCHROME2" }
            { shape := s, data := (q0 :: qs).map FP.num })))).map astype_uint8 := rfl
  rw [e1, e2]
  rw [modality_voi_values amLut vLut { ds with PhotometricInterpretation := some "MONOCHROME1" }
      s q0 qs slope intercept wc ww hs hi hsig hwc hww,
    modality_voi_values amLut vLut { ds with PhotometricInterpretation := some "MONOCHROME2" }
      s q0 qs slope intercept wc ww hs hi hsig hwc hww]
  exact invert_quant_bounds s _ _ m M hm hM hlt _ _ rfl (by simp)

theorem C7_witness :
    List.Forall₂ (fun x y => ∃ u v : ℤ, x = FP.num u ∧ y = FP.num v ∧
        0 ≤ u ∧ 0 ≤ v ∧ 254 ≤ u + v ∧ u + v ≤ 255)
      (pixel_process idLut idLut { dsWindowed with PhotometricInterpretation := some "MONOCHROME1" }
        { shape := [3], data := ([0, 1, 2] : List ℚ).map FP.num }).data
      (pixel_process idLut idLut { dsWindowed with PhotometricInterpretation := some "MONOCHROME2" }
        { shape := [3], data := ([0, 1, 2] : List ℚ).map FP.num }).data :=
  C7_amended idLut idLut dsWindowed [3] 1 0 (.scalar 1) (.scalar 4) 0 [1, 2] (1/2) (3/2)
    rfl rfl (by decide) rfl rfl
    (by
      simp [voi_step, modality_step, get_LUT_value_LINEAR_EXACT, NDArray.map, arrMin, arrMax,
        dsWindowed, TagValue.resolve, FP.fmin_num, FP.fmax_num, FP.add_num, FP.sub_num,
        FP.mul_num, FP.div_num, FP.ltb_num, FP.leb_num]
      norm_num [FP.fmin_num, FP.fmax_num, FP.add_num, FP.sub_num, FP.mul_num, FP.div_num,
        FP.ltb_num, FP.leb_num])
    (by
      simp [voi_step, modality_step, get_LUT_value_LINEAR_EXACT, NDArray.map, arrMin, arrMax,
        dsWindowed, TagValue.resolve, FP.fmin_num, FP.fmax_num, FP.add_num, FP.sub_num,
        FP.mul_num, FP.div_num, FP.ltb_num, FP.leb_num]
      norm_num [FP.fmin_num, FP.fmax_num, FP.add_num, FP.sub_num, FP.mul_num, FP.div_num,
        FP.ltb_num, FP.leb_num])
    (by norm_num)
